import Mathlib

/-!
Verification of the session/message state machine and streaming-response
reconciliation engine of the aid-upgraded chat application.

The definitions below are a shallow embedding of the TypeScript source:
  * `src/types.ts`                       — data model
  * `src/unnamed/part_005`               — sessionService (createNewSession, addMessageToSession)
  * `src/components/ChatUI.tsx`          — checkPlaceholders, processStream, handleSendMessage,
                                           handlePlayAudio, prefetchAudio
  * `src/components/ClauseSwapWizard.tsx`— handleFinalize
  * `src/unnamed/part_000`               — legacy ChatUI: handleFinalizeWizard, onboarding branch,
                                           error append, retry filter, auth resolution
  * `src/components/LiveChatUI.tsx`      — handleTranscriptionUpdate

JavaScript `Date.now()` timestamps are modelled as explicit `now : Nat`
arguments; `localStorage` reads/writes are modelled by passing the session
(or the order list) in and out of each operation; optional fields of the
TypeScript interfaces become `Option` fields.
-/

namespace Aidlex

/-! ## Data model (src/types.ts) -/

inductive Role where
  | user
  | model
deriving DecidableEq, Repr

inductive MessageType where
  | standard
  | wizard
  | auth_prompt
  | research_brief
deriving DecidableEq, Repr

inductive ServiceCode where
  | s1 | s2 | s3 | s4 | s5 | s6 | s7
  | research
  | researchWeb
deriving DecidableEq, Repr

inductive Persona where
  | default
  | mentor
  | genZ
  | courtFormal
deriving DecidableEq, Repr

structure Source where
  uri : String
  title : String
deriving DecidableEq, Repr

inductive VerificationLabel where
  | verified
  | reasonablyInferred
  | unverifiedNeedsSource
deriving DecidableEq, Repr

structure VerifiedPoint where
  label : VerificationLabel
  proposition : String
  cite : Option String
deriving DecidableEq, Repr

inductive Jurisdiction where
  | onshore | difc | adgm | mixed
deriving DecidableEq, Repr

structure ResearchBundle where
  issue : String
  forum : Jurisdiction
  points : List VerifiedPoint
  lastVerifiedOn : String
deriving DecidableEq, Repr

structure FileData where
  name : String
  ftype : String
deriving DecidableEq, Repr

/-- Message record `ChatMessage` of src/types.ts (plus the `fileData` field used by ChatUI.tsx). -/
structure ChatMessage where
  role : Role
  content : String
  ts : Nat
  sources : Option (List Source) := none
  messageType : Option MessageType := none
  suggestedReplies : Option (List String) := none
  error : Option Bool := none
  promptForRetry : Option String := none
  fileData : Option FileData := none
  researchData : Option ResearchBundle := none
deriving DecidableEq, Repr

structure SessionMeta where
  code : Option ServiceCode := none
  persona : Option Persona := none
  needsOnboarding : Option Bool := none
deriving DecidableEq, Repr

structure ChatSession where
  id : String
  title : String
  createdAt : Nat
  meta : SessionMeta
  messages : List ChatMessage
deriving DecidableEq, Repr

/-- Payload type of `ChatMessage` without `ts`: the message payload handed to `addMessageToSession`
before the creation timestamp is stamped. -/
structure NewMessage where
  role : Role
  content : String
  sources : Option (List Source) := none
  messageType : Option MessageType := none
  suggestedReplies : Option (List String) := none
  error : Option Bool := none
  promptForRetry : Option String := none
  fileData : Option FileData := none
  researchData : Option ResearchBundle := none
deriving DecidableEq, Repr

/-- Timestamp stamping spread in `addMessageToSession`: the payload plus `ts = Date.now()`. -/
def NewMessage.stamp (m : NewMessage) (now : Nat) : ChatMessage :=
  { role := m.role, content := m.content, ts := now, sources := m.sources,
    messageType := m.messageType, suggestedReplies := m.suggestedReplies,
    error := m.error, promptForRetry := m.promptForRetry,
    fileData := m.fileData, researchData := m.researchData }

/-! ## constants.ts -/

/-- Mapping `LABELS` of src/constants.ts. -/
def labelOf : ServiceCode → String
  | .s1 => "Legal & Court"
  | .s2 => "Emigration & Visa"
  | .s3 => "Municipality & DED"
  | .s4 => "MOHRE (Labour)"
  | .s5 => "—"
  | .s6 => "Business & Administrative"
  | .s7 => "Request Letters & Formatting"
  | .research => "Structured Legal Research"
  | .researchWeb => "Web-Grounded Research"

/-! ## sessionService (src/unnamed/part_005) -/

def onboardingGreeting : String :=
  "Welcome to AIDLEX.AE. To provide a personalized experience, may I know your name, please?"

/-- The `initialMessageContent` branching of `createNewSession`
(src/unnamed/part_005 lines 55-65). -/
def initialMessageContent (userName : Option String) (code : Option ServiceCode) : String :=
  match userName with
  | none => onboardingGreeting
  | some name =>
    match code with
    | some c =>
      if c ≠ ServiceCode.research then
        "Welcome back, " ++ name ++ ". You\x27ve selected **" ++ labelOf c ++
          "**. How can I assist you with this topic?"
      else
        "Welcome back, " ++ name ++ ". What legal topic would you like to research today?"
    | none => "Welcome back, " ++ name ++ "! How can I help you today?"

/-- Session creation `createNewSession` (src/unnamed/part_005 lines 46-90).
`userName` is the persisted `userService.getUserName()` value, `now` is
`Date.now()`, and `order` the stored order list; the function returns the new
session together with the updated order list (`order.unshift(id)`). -/
def createNewSession (userName : Option String) (code : Option ServiceCode)
    (now : Nat) (title : String) (order : List String) :
    ChatSession × List String :=
  let needsOnboarding : Bool := userName.isNone
  let initialMessage : ChatMessage :=
    { role := Role.model, content := initialMessageContent userName code,
      ts := now, messageType := some MessageType.standard }
  let newSession : ChatSession :=
    { id := "c" ++ toString now, title := title, createdAt := now,
      meta := { code := code, persona := some Persona.default,
                needsOnboarding := some needsOnboarding },
      messages := [initialMessage] }
  (newSession, newSession.id :: order)

/-- Deletion of `suggestedReplies` on the previous model message. -/
def stripReplies (m : ChatMessage) : ChatMessage :=
  { m with suggestedReplies := none }

/-- The clearing step of `addMessageToSession` (src/unnamed/part_005 lines
106-111): when the incoming message is a user message and the last stored
message has role model, its `suggestedReplies` field is deleted. -/
def clearPrevSuggested (msgs : List ChatMessage) : List ChatMessage :=
  match msgs.getLast? with
  | some lastMessage =>
    if lastMessage.role = Role.model then msgs.dropLast ++ [stripReplies lastMessage]
    else msgs
  | none => msgs

/-- Title derivation: `message.content.slice(0, 40)` plus an ellipsis when truncated. -/
def titleFrom (content : String) : String :=
  String.mk (content.data.take 40) ++ (if 40 < content.data.length then "…" else "")

/-- Message append `addMessageToSession` (src/unnamed/part_005 lines 96-121), acting on the
session resolved from storage (the `null`-on-missing-session branch is the
caller looking up the session id first). `now` is `Date.now()`. -/
def addMessageToSession (s : ChatSession) (message : NewMessage) (now : Nat) :
    ChatSession :=
  let msgs :=
    if message.role = Role.user then clearPrevSuggested s.messages else s.messages
  let msgs2 := msgs ++ [message.stamp now]
  let newTitle :=
    if s.title = "New chat" ∧ message.role = Role.user ∧
        s.meta.needsOnboarding ≠ some true then
      titleFrom message.content
    else s.title
  { s with messages := msgs2, title := newTitle }

/-! ## Response classifier: placeholder scanning

`checkPlaceholders` (src/components/ChatUI.tsx lines 93-96) matches the global
regular expression for a double-angle-bracket placeholder: two opening angle
brackets, one or more non-`>` characters, two closing angle brackets.  The
scanner below reproduces the global-match behaviour: on a successful match it
continues after the match, on failure it advances one character. -/

def scanPlaceholdersAux : Nat → List Char → List String
  | 0, _ => []
  | _ + 1, [] => []
  | fuel + 1, '<' :: '<' :: rest =>
    let inner := rest.takeWhile (fun ch => ch ≠ '>')
    match rest.drop inner.length with
    | '>' :: '>' :: tail =>
      if inner.isEmpty then scanPlaceholdersAux fuel ('<' :: rest)
      else String.mk inner :: scanPlaceholdersAux fuel tail
    | _ => scanPlaceholdersAux fuel ('<' :: rest)
  | fuel + 1, _ :: rest => scanPlaceholdersAux fuel rest

/-- All placeholder matches of `text.match` against the global double-angle
pattern, in scan order (inner names only).  Each step of the auxiliary scanner
consumes at least one character, so `l.length` steps of fuel always suffice. -/
def scanPlaceholders (l : List Char) : List String :=
  scanPlaceholdersAux l.length l

/-- Classifier `checkPlaceholders` of src/components/ChatUI.tsx. -/
def checkPlaceholders (text : String) : MessageType :=
  if scanPlaceholders text.data ≠ [] then MessageType.wizard else MessageType.standard

/-! ## Streaming reconciliation (src/components/ChatUI.tsx) -/

/-- Events yielded by `getChatResponse` / `getGroundedResponse`
(src/services/geminiService.ts lines 17-24). -/
inductive StreamEvent where
  | chunk (text : String)
  | sources (sources : List Source)
  | complete (suggestedReplies : List String)
deriving DecidableEq, Repr

structure StreamAcc where
  fullResponse : String
  streamSources : List Source
  suggestedReplies : List String
deriving DecidableEq, Repr

/-- Apply `f` to the last element of a list (the in-place mutation of
`current.messages[current.messages.length - 1]`). -/
def modifyLast (f : ChatMessage → ChatMessage) : List ChatMessage → List ChatMessage
  | [] => []
  | [m] => [f m]
  | m :: m2 :: rest => m :: modifyLast f (m2 :: rest)

/-- Apply `f` to the element at index `i` (the in-place mutation of
`session.messages[botMessageIndex]`); out-of-range indices leave the list
unchanged. -/
def modifyIdx (msgs : List ChatMessage) (i : Nat) (f : ChatMessage → ChatMessage) :
    List ChatMessage :=
  match msgs.get? i with
  | some m => msgs.set i (f m)
  | none => msgs

/-- One event of `processStream`s loop (src/components/ChatUI.tsx lines
689-704): a `chunk` extends the accumulated response and writes it into the
last message of the session, `sources` and `complete` only update the local
accumulators returned at the end. -/
def processStreamStep (st : List ChatMessage × StreamAcc) (e : StreamEvent) :
    List ChatMessage × StreamAcc :=
  match e with
  | StreamEvent.chunk t =>
    let full := st.2.fullResponse ++ t
    (modifyLast (fun m => { m with content := full }) st.1,
     { st.2 with fullResponse := full })
  | StreamEvent.sources srcs => (st.1, { st.2 with streamSources := srcs })
  | StreamEvent.complete reps => (st.1, { st.2 with suggestedReplies := reps })

/-- Streaming loop `processStream` (src/components/ChatUI.tsx lines 681-708) consuming an
in-order event list. -/
def processStream (msgs : List ChatMessage) (events : List StreamEvent) :
    List ChatMessage × StreamAcc :=
  events.foldl processStreamStep (msgs, { fullResponse := "", streamSources := [], suggestedReplies := [] })

def apologyMessage : String := "Sorry, I encountered an error. Please try again."

/-- The user message built at the top of `handleSendMessage`
(src/components/ChatUI.tsx lines 713-714). -/
def userNewMessage (prompt : String) (file : Option FileData) : NewMessage :=
  { role := Role.user, content := prompt, fileData := file }

def emptyModelMessage : NewMessage :=
  { role := Role.model, content := "" }

/-- The outcome of awaiting the stream: `ok events` when the generator runs to
completion having yielded `events`; `failed events` when the generator (or the
backend call) throws after yielding the prefix `events`. -/
inductive StreamOutcome where
  | ok (events : List StreamEvent)
  | failed (events : List StreamEvent)
deriving DecidableEq, Repr

/-- Send handler `handleSendMessage` of src/components/ChatUI.tsx (lines 710-783), default
chat path (serviceCode neither research nor research-web), acting on the
current session.  `nowU`/`nowM` are the `Date.now()` stamps of the two appends.

Faithful detail: `botMessageIndex` is read from `currentSession.messages.length`
where `currentSession` is the React state snapshot captured by the callback
closure — the appends performed through `sessionService` do not update that
snapshot, so the index is the message count *before* the user message is
appended (line 719 runs textually after the `addMessage` call of line 715, but
on the stale snapshot). -/
def handleSendMessage (s : ChatSession) (prompt : String) (file : Option FileData)
    (outcome : StreamOutcome) (nowU nowM : Nat) : ChatSession :=
  let botMessageIndex := s.messages.length
  let s1 := addMessageToSession s (userNewMessage prompt file) nowU
  let s2 := addMessageToSession s1 emptyModelMessage nowM
  match outcome with
  | StreamOutcome.ok events =>
    let res := processStream s2.messages events
    let finalType := checkPlaceholders res.2.fullResponse
    let msgs := modifyIdx res.1 botMessageIndex (fun m =>
      { m with content := res.2.fullResponse,
               sources := if res.2.streamSources ≠ [] then some res.2.streamSources else none,
               suggestedReplies := some res.2.suggestedReplies,
               messageType := some finalType,
               researchData := none })
    { s2 with messages := msgs }
  | StreamOutcome.failed events =>
    let res := processStream s2.messages events
    let msgs := modifyIdx res.1 botMessageIndex (fun m =>
      { m with content := apologyMessage,
               error := some true,
               promptForRetry := some prompt,
               fileData := file })
    { s2 with messages := msgs }

/-! ## Clause-swap wizard (src/components/ClauseSwapWizard.tsx, src/unnamed/part_000) -/

/-- Replace every non-overlapping occurrence of `pat` in the list by `repl`
verbatim, scanning left to right and continuing after each replacement: the
substitution semantics the wizard-finalization claim describes in words
(used below as the comparison point for the source behaviour).  Fuel-based:
each step consumes at least one character. -/
def replaceListAux (pat repl : List Char) : Nat → List Char → List Char
  | 0, l => l
  | _ + 1, [] => []
  | fuel + 1, c :: rest =>
    if pat ≠ [] ∧ (c :: rest).take pat.length = pat then
      repl ++ replaceListAux pat repl fuel ((c :: rest).drop pat.length)
    else
      c :: replaceListAux pat repl fuel rest

def replaceAllLiteral (s pat repl : String) : String :=
  String.mk (replaceListAux pat.data repl.data s.data.length s.data)

def backquoteChar : Char := Char.ofNat 96

def singleQuoteChar : Char := Char.ofNat 39

/-- GetSubstitution scan of a string replacement in `String.prototype.replace`
for a regex with zero capture groups: a double dollar yields one dollar
character, dollar-ampersand yields the matched text, dollar-backquote the
portion of the subject before the match, dollar-quote the portion after it;
every other dollar sequence is copied literally (a dollar followed by a digit
refers to a capture group, and the placeholder regexes have none, so it too is
literal).  Fuel-based: each step consumes at least one character. -/
def expandDollarAux (matched before after : List Char) : Nat → List Char → List Char
  | 0, l => l
  | _ + 1, [] => []
  | fuel + 1, c :: rest =>
    if c = '$' then
      match rest with
      | [] => ['$']
      | d :: rest2 =>
        if d = '$' then '$' :: expandDollarAux matched before after fuel rest2
        else if d = '&' then matched ++ expandDollarAux matched before after fuel rest2
        else if d = backquoteChar then before ++ expandDollarAux matched before after fuel rest2
        else if d = singleQuoteChar then after ++ expandDollarAux matched before after fuel rest2
        else '$' :: expandDollarAux matched before after fuel rest
    else c :: expandDollarAux matched before after fuel rest

def getSubstitution (matched before after repl : List Char) : List Char :=
  expandDollarAux matched before after repl.length repl

/-- JS `String.prototype.replace` with a global regex and a string replacement,
for a literal pattern: every non-overlapping match is substituted by the
GetSubstitution expansion of the replacement, whose dollar-backquote and
dollar-quote forms see the original subject around the match (`whole` with the
running position `pos`). -/
def replaceJSAux (pat repl whole : List Char) : Nat → Nat → List Char → List Char
  | 0, _, l => l
  | _ + 1, _, [] => []
  | fuel + 1, pos, c :: rest =>
    if pat ≠ [] ∧ (c :: rest).take pat.length = pat then
      getSubstitution pat (whole.take pos) (whole.drop (pos + pat.length)) repl
        ++ replaceJSAux pat repl whole fuel (pos + pat.length) ((c :: rest).drop pat.length)
    else
      c :: replaceJSAux pat repl whole fuel (pos + 1) rest

def replaceAllJS (s pat repl : String) : String :=
  String.mk (replaceJSAux pat.data repl.data s.data s.data.length 0 s.data)

/-- Set-based deduplication of matches: unique placeholders in first-occurrence order. -/
def uniqueFirstAux : Nat → List String → List String
  | 0, _ => []
  | _ + 1, [] => []
  | fuel + 1, x :: xs => x :: uniqueFirstAux fuel (xs.filter (fun y => y ≠ x))

def uniqueFirst (l : List String) : List String := uniqueFirstAux l.length l

/-- The de-duplicated placeholder names of a wizard template
(src/components/ClauseSwapWizard.tsx lines 9-14). -/
def templatePlaceholders (templateContent : String) : List String :=
  uniqueFirst (scanPlaceholders templateContent.data)

/-- Value selection `values[placeholder] || marker`: an absent or empty value falls back to
the not-provided marker. -/
def placeholderValue (values : String → Option String) (p : String) : String :=
  match values p with
  | some v => if v = "" then "[" ++ p ++ "_NOT_PROVIDED]" else v
  | none => "[" ++ p ++ "_NOT_PROVIDED]"

/-- Finalizer `handleFinalize` of src/components/ClauseSwapWizard.tsx (lines
24-33): for each unique placeholder, `finalized.replace(regex, value)` where
the regex is built from the raw placeholder name with the global flag and the
value is the supplied (or fallback) string.  For placeholder names free of
regex metacharacters the pattern matches the double-angle text literally,
embedded as such here (a name with metacharacters would change or break the
regex, which a string-level embedding cannot express); the replacement string
undergoes the dollar-pattern expansion of `String.prototype.replace`
(`getSubstitution`), which is where the source deviates from verbatim
substitution. -/
def handleFinalize (templateContent : String) (values : String → Option String) :
    String :=
  (templatePlaceholders templateContent).foldl
    (fun finalized p =>
      replaceAllJS finalized ("<<" ++ p ++ ">>") (placeholderValue values p))
    templateContent

/-- Finalization as the claim words it: every occurrence of each placeholder is
replaced by the supplied value verbatim (empty or missing values fall back to
the not-provided marker).  This is the spec-side comparison point for the
corrected claim C5; it agrees with `handleFinalize` exactly when no replacement
text contains a dollar character. -/
def specHandleFinalize (templateContent : String) (values : String → Option String) :
    String :=
  (templatePlaceholders templateContent).foldl
    (fun finalized p =>
      replaceAllLiteral finalized ("<<" ++ p ++ ">>") (placeholderValue values p))
    templateContent

/-- Field values refuting the frozen claim C5: the supplied NAME value is the
JS replacement pattern dollar-ampersand. -/
def dollarValues : String → Option String := fun p =>
  if p = "NAME" then some "$&" else none

/-- Wizard finalizer `handleFinalizeWizard` of src/unnamed/part_000 (lines 662-678): find the
message whose `ts` equals `messageTs`, rewrite its content with the finalized
text and flip its `messageType` to standard. -/
def handleFinalizeWizard (msgs : List ChatMessage) (messageTs : Nat)
    (finalizedContent : String) : List ChatMessage :=
  match msgs.findIdx? (fun m => m.ts == messageTs) with
  | some i => modifyIdx msgs i (fun m =>
      { m with content := finalizedContent, messageType := some MessageType.standard })
  | none => msgs

/-! ## Live transcription merge (src/components/LiveChatUI.tsx lines 37-55) -/

inductive Speaker where
  | user
  | model
deriving DecidableEq, Repr

structure TranscriptionTurn where
  speaker : Speaker
  text : String
deriving DecidableEq, Repr

inductive LiveMessage where
  | transcript (turn : TranscriptionTurn)
  | system (text : String)
deriving DecidableEq, Repr

def speakerStr : Speaker → String
  | Speaker.user => "user"
  | Speaker.model => "model"

/-- The `uniqueMessageMap` key: transcripts are keyed by the template string
`speaker:text`, system messages by their text. -/
def liveKey : LiveMessage → String
  | LiveMessage.transcript t => speakerStr t.speaker ++ ":" ++ t.text
  | LiveMessage.system txt => txt

def isSystemMsg : LiveMessage → Bool
  | LiveMessage.system _ => true
  | LiveMessage.transcript _ => false

/-- Map insertion `Map.set` on an insertion-ordered association list: an existing key keeps
its position and has its value replaced; a new key is appended. -/
def upsertLive (acc : List (String × LiveMessage)) (m : LiveMessage) :
    List (String × LiveMessage) :=
  if liveKey m ∈ acc.map Prod.fst then
    acc.map (fun p => if p.1 = liveKey m then (p.1, m) else p)
  else
    acc ++ [(liveKey m, m)]

def insertAllLive (acc : List (String × LiveMessage)) (ms : List LiveMessage) :
    List (String × LiveMessage) :=
  ms.foldl upsertLive acc

/-- Value extraction `Array.from(uniqueMessageMap.values())` after inserting every message. -/
def dedupLive (ms : List LiveMessage) : List LiveMessage :=
  (insertAllLive [] ms).map Prod.snd

/-- Merge handler `handleTranscriptionUpdate` (src/components/LiveChatUI.tsx lines 37-55):
rebuild the visible list as the incoming transcript turns followed by the
previously displayed system messages, de-duplicated through the keyed map. -/
def handleTranscriptionUpdate (turns : List TranscriptionTurn)
    (currentMessages : List LiveMessage) : List LiveMessage :=
  dedupLive (turns.map LiveMessage.transcript ++ currentMessages.filter isSystemMsg)

/-! ## Audio playback coordinator (src/components/ChatUI.tsx lines 620-679)

Playback sources (`AudioBufferSourceNode`s) are modelled by numeric ids drawn
from a fresh-id counter; `playing` is the set of sources that have been started
and not stopped, `sourceRef` is `audioSourceRef.current`, and
`speakingMessageIndex` the React state of the same name. -/

inductive AudioAction where
  | stop (id : Nat)
  | start (id : Nat)
deriving DecidableEq, Repr

structure AudioState where
  speakingMessageIndex : Option Nat := none
  sourceRef : Option Nat := none
  nextId : Nat := 0
  playing : List Nat := []
  audioCache : List (Nat × String) := []
deriving DecidableEq, Repr

def lookupCache (c : List (Nat × String)) (i : Nat) : Option String :=
  (c.find? (fun p => p.1 == i)).map Prod.snd

/-- Stop call `audioSourceRef.current?.stop()`: remove the referenced source from the
started set (the ref itself is not cleared by the source). -/
def stopCurrentSource (st : AudioState) : AudioState × List AudioAction :=
  match st.sourceRef with
  | some id => ({ st with playing := st.playing.erase id }, [AudioAction.stop id])
  | none => (st, [])

/-- Prefetch `prefetchAudio` (src/components/ChatUI.tsx lines 620-636): no-op when the
index is cached or the text empty; otherwise the synthesis result (`synth`,
`none` when `getTextToSpeech` throws) is stored in the cache.  The loading flag
is set and cleared within the call, hence not part of the resulting state. -/
def prefetchAudio (st : AudioState) (text : String) (index : Nat)
    (synth : Option String) : AudioState :=
  if (lookupCache st.audioCache index).isSome ∨ text = "" then st
  else
    match synth with
    | some b64 => { st with audioCache := st.audioCache ++ [(index, b64)] }
    | none => st

/-- Play handler `handlePlayAudio` (src/components/ChatUI.tsx lines 638-679).  Returns the
new state together with the ordered list of stop/start actions issued.

Faithful detail: in the uncached branch the code awaits `prefetchAudio` and
then reads `audioCache.get(index)` from the `audioCache` map captured by the
closure — the stale snapshot, in which the index is still absent — so no
playback starts on that call. -/
def handlePlayAudio (st : AudioState) (text : String) (index : Nat)
    (synth : Option String) : AudioState × List AudioAction :=
  if st.speakingMessageIndex = some index then
    ({ (stopCurrentSource st).1 with speakingMessageIndex := none },
     (stopCurrentSource st).2)
  else if (lookupCache (stopCurrentSource st).1.audioCache index).isSome then
    ({ (stopCurrentSource st).1 with
        speakingMessageIndex := some index,
        playing := (stopCurrentSource st).1.playing ++ [(stopCurrentSource st).1.nextId],
        sourceRef := some (stopCurrentSource st).1.nextId,
        nextId := (stopCurrentSource st).1.nextId + 1 },
     (stopCurrentSource st).2 ++ [AudioAction.start (stopCurrentSource st).1.nextId])
  else
    (prefetchAudio (stopCurrentSource st).1 text index synth, (stopCurrentSource st).2)

/-! ## Definitions used by the claim statements -/

/-- Coordinator invariant: the started-and-not-stopped playback sources are
either none or exactly the one held by `audioSourceRef`, and every referenced
source id was drawn from the fresh-id counter. -/
def AudioInv (st : AudioState) : Prop :=
  (st.playing = [] ∨ ∃ id, st.sourceRef = some id ∧ st.playing = [id])
  ∧ (∀ id, st.sourceRef = some id → id < st.nextId)

/-- The field-value assignment of the claim example: NAME is filled with
"Ali", CASE_ID left empty. -/
def clauseValues : String → Option String := fun p =>
  if p = "NAME" then some "Ali" else if p = "CASE_ID" then some "" else none

def wizardTemplate : String := "Dear <<NAME>>, your case <<CASE_ID>> is open."

def wizardExampleMessage : ChatMessage :=
  { role := Role.model, content := wizardTemplate, ts := 77,
    messageType := some MessageType.wizard }

/-- Well-formedness of the insertion-ordered association list that embeds the
`uniqueMessageMap`: keys are distinct and the key of each entry is the key of its
stored message. -/
def GoodAcc (acc : List (String × LiveMessage)) : Prop :=
  (acc.map Prod.fst).Nodup ∧ ∀ p ∈ acc, p.1 = liveKey p.2

/-! ## Auxiliary lemmas -/

theorem clearPrevSuggested_concat (ms : List ChatMessage) (m : ChatMessage) :
    clearPrevSuggested (ms ++ [m]) =
      if m.role = Role.model then ms ++ [stripReplies m] else ms ++ [m] := by
  unfold clearPrevSuggested
  rw [List.getLast?_concat, List.dropLast_concat]

theorem stopCurrentSource_spec (st : AudioState)
    (hinv : st.playing = [] ∨ ∃ id, st.sourceRef = some id ∧ st.playing = [id]) :
    (stopCurrentSource st).1.playing = []
    ∧ (stopCurrentSource st).1.sourceRef = st.sourceRef
    ∧ (stopCurrentSource st).1.nextId = st.nextId
    ∧ (stopCurrentSource st).1.audioCache = st.audioCache
    ∧ (stopCurrentSource st).1.speakingMessageIndex = st.speakingMessageIndex
    ∧ (∀ id, st.sourceRef = some id → (stopCurrentSource st).2 = [AudioAction.stop id]) := by
  unfold stopCurrentSource
  cases hsrc : st.sourceRef with
  | none =>
    rcases hinv with h | ⟨id, hid, _⟩
    · simp [h, hsrc]
    · rw [hsrc] at hid; cases hid
  | some id =>
    rcases hinv with h | ⟨id2, hid2, hpl⟩
    · simp [h]
    · rw [hsrc] at hid2
      cases hid2
      simp [hpl, List.erase_cons_head]

theorem audioInv_length (st : AudioState) (h : AudioInv st) :
    st.playing.length ≤ 1 := by
  rcases h.1 with hpl | ⟨id, _, hpl⟩ <;> simp [hpl]

theorem prefetchAudio_spec (st : AudioState) (text : String) (index : Nat)
    (synth : Option String) :
    (prefetchAudio st text index synth).playing = st.playing
    ∧ (prefetchAudio st text index synth).sourceRef = st.sourceRef
    ∧ (prefetchAudio st text index synth).nextId = st.nextId
    ∧ (prefetchAudio st text index synth).speakingMessageIndex = st.speakingMessageIndex := by
  unfold prefetchAudio
  split
  · exact ⟨rfl, rfl, rfl, rfl⟩
  · cases synth <;> simp

/-! ## Claim theorems -/

/-- C1: when the stream fails after a partial chunk, the send handler does not
mark the in-flight model message: the `error=true` / `promptForRetry` / apology
mutation is applied at the stale snapshot index, which addresses the just-sent
user message, while the model message keeps the partial content with no error
flag.  Evaluated on a fresh session, prompt "hi", and a stream that throws
after yielding `chunk "Hel"`. -/
theorem c1_failed_send_marks_user_message :
    (let s0 := (createNewSession none none 100 "New chat" []).1
     let r := handleSendMessage s0 "hi" none
       (StreamOutcome.failed [StreamEvent.chunk "Hel"]) 101 102
     (r.messages.map fun m => (m.role, m.content, m.error, m.promptForRetry)) =
       [(Role.model, onboardingGreeting, none, none),
        (Role.user, apologyMessage, some true, some "hi"),
        (Role.model, "Hel", none, none)]
     ∧ ∀ m ∈ r.messages, m.role = Role.model → m.error ≠ some true) := by
  decide

/-- C2: evaluation of a full send over the stream
`[chunk "Hello ", chunk "world", complete []]` on a fresh session: the chunk
deltas are appended to the in-flight model message in arrival order (its final
content is `"Hello world"`), but `suggestedReplies = []` is written at the
stale snapshot index — the user message — and the field of the model message named
`suggestedReplies` remains unset rather than becoming the empty list. -/
theorem c2_stream_chunks_append_in_order :
    (let s0 := (createNewSession none none 100 "New chat" []).1
     let r := handleSendMessage s0 "hi" none
       (StreamOutcome.ok [StreamEvent.chunk "Hello ", StreamEvent.chunk "world",
                          StreamEvent.complete []]) 101 102
     (r.messages.map fun m => (m.role, m.content, m.suggestedReplies)) =
       [(Role.model, onboardingGreeting, none),
        (Role.user, "Hello world", some []),
        (Role.model, "Hello world", none)]
     ∧ (r.messages.getLast?.map fun m => m.suggestedReplies) = some none) := by
  decide

/-- C4: session creation seeds exactly one initial message, of role model;
when no user name is persisted the message is the onboarding greeting and
`needsOnboarding` is true; and the new id is prepended to the order list. -/
theorem c4_createNewSession_initial_state (userName : Option String)
    (code : Option ServiceCode) (now : Nat) (title : String) (order : List String) :
    ((createNewSession userName code now title order).1.messages.length = 1
      ∧ ∀ m ∈ (createNewSession userName code now title order).1.messages,
          m.role = Role.model)
    ∧ (userName = none →
        (createNewSession userName code now title order).1.messages =
          [{ role := Role.model, content := onboardingGreeting, ts := now,
             messageType := some MessageType.standard }]
        ∧ (createNewSession userName code now title order).1.meta.needsOnboarding
            = some true)
    ∧ (createNewSession userName code now title order).2 =
        (createNewSession userName code now title order).1.id :: order := by
  refine ⟨⟨rfl, ?_⟩, ?_, rfl⟩
  · intro m hm
    simp only [createNewSession, List.mem_singleton] at hm
    rw [hm]
  · intro hname
    subst hname
    exact ⟨rfl, rfl⟩

theorem c4_createNewSession_initial_state_witness :
    ((createNewSession none none 100 "New chat" ["c50"]).1.messages.length = 1
      ∧ ∀ m ∈ (createNewSession none none 100 "New chat" ["c50"]).1.messages,
          m.role = Role.model)
    ∧ ((none : Option String) = none →
        (createNewSession none none 100 "New chat" ["c50"]).1.messages =
          [{ role := Role.model, content := onboardingGreeting, ts := 100,
             messageType := some MessageType.standard }]
        ∧ (createNewSession none none 100 "New chat" ["c50"]).1.meta.needsOnboarding
            = some true)
    ∧ (createNewSession none none 100 "New chat" ["c50"]).2 =
        (createNewSession none none 100 "New chat" ["c50"]).1.id :: ["c50"] :=
  c4_createNewSession_initial_state none none 100 "New chat" ["c50"]

theorem expandDollarAux_no_dollar (matched before after : List Char) :
    ∀ (fuel : Nat) (l : List Char), ('$' : Char) ∉ l →
      expandDollarAux matched before after fuel l = l := by
  intro fuel
  induction fuel with
  | zero => intro l _; rfl
  | succ fuel ih =>
    intro l hl
    cases l with
    | nil => rfl
    | cons c rest =>
      by_cases hc : c = '$'
      · exfalso
        rw [hc] at hl
        exact hl (List.mem_cons_self _ _)
      · simp only [expandDollarAux, if_neg hc]
        rw [ih rest (fun hm => hl (List.mem_cons_of_mem c hm))]

theorem replaceJSAux_eq_literal (pat repl whole : List Char)
    (hrep : ('$' : Char) ∉ repl) :
    ∀ (fuel pos : Nat) (l : List Char),
      replaceJSAux pat repl whole fuel pos l = replaceListAux pat repl fuel l := by
  intro fuel
  induction fuel with
  | zero => intro pos l; rfl
  | succ fuel ih =>
    intro pos l
    cases l with
    | nil => rfl
    | cons c rest =>
      simp only [replaceJSAux, replaceListAux]
      by_cases hmatch : pat ≠ [] ∧ (c :: rest).take pat.length = pat
      · rw [if_pos hmatch, if_pos hmatch,
            show getSubstitution pat (whole.take pos) (whole.drop (pos + pat.length)) repl
              = repl from expandDollarAux_no_dollar _ _ _ repl.length repl hrep,
            ih]
      · rw [if_neg hmatch, if_neg hmatch, ih]

theorem replaceAllJS_eq_literal (s pat repl : String)
    (h : ('$' : Char) ∉ repl.data) :
    replaceAllJS s pat repl = replaceAllLiteral s pat repl := by
  unfold replaceAllJS replaceAllLiteral
  rw [replaceJSAux_eq_literal pat.data repl.data s.data h]

theorem modifyIdx_get? (msgs : List ChatMessage) (i : Nat)
    (f : ChatMessage → ChatMessage) (j : Nat) :
    (modifyIdx msgs i f).get? j =
      if i = j then (msgs.get? j).map f else msgs.get? j := by
  cases hget : msgs.get? i with
  | none =>
    have e : modifyIdx msgs i f = msgs := by
      unfold modifyIdx
      rw [hget]
    rw [e]
    by_cases hij : i = j
    · rw [if_pos hij, ← hij, hget]
      rfl
    · rw [if_neg hij]
  | some m0 =>
    have e : modifyIdx msgs i f = msgs.set i (f m0) := by
      unfold modifyIdx
      rw [hget]
    rw [e]
    by_cases hij : i = j
    · subst hij
      rw [if_pos rfl, List.get?_set_eq, hget]
      rfl
    · rw [if_neg hij, List.get?_set_ne _ _ hij]

theorem handleFinalizeWizard_get? (msgs : List ChatMessage) (ts0 : Nat)
    (c : String) (j : Nat) :
    (handleFinalizeWizard msgs ts0 c).get? j =
      if msgs.findIdx? (fun m => m.ts == ts0) = some j
      then (msgs.get? j).map (fun m =>
        { m with content := c, messageType := some MessageType.standard })
      else msgs.get? j := by
  unfold handleFinalizeWizard
  cases hfind : msgs.findIdx? (fun m => m.ts == ts0) with
  | none =>
    rw [if_neg (by simp)]
  | some i =>
    show (modifyIdx msgs i (fun m =>
      { m with content := c, messageType := some MessageType.standard })).get? j = _
    rw [modifyIdx_get?]
    by_cases hij : i = j
    · rw [if_pos hij, if_pos (by rw [hij])]
    · rw [if_neg hij, if_neg (by simp [hij])]

/-- C5 (corrected): the frozen claim fails on the source because the supplied
value is inserted through the dollar-pattern expansion of
`String.prototype.replace` rather than verbatim.  At template
`"Dear <<NAME>>."` with supplied value `"$&"` the code leaves the placeholder
text in place (the expansion of dollar-ampersand is the matched placeholder
itself), while the claimed replace-with-the-supplied-value semantics
(`specHandleFinalize`) yields `"Dear $&."`. -/
theorem c5_wizard_finalization_counterexample :
    handleFinalize "Dear <<NAME>>." dollarValues = "Dear <<NAME>>."
    ∧ specHandleFinalize "Dear <<NAME>>." dollarValues = "Dear $&."
    ∧ handleFinalize "Dear <<NAME>>." dollarValues
        ≠ specHandleFinalize "Dear <<NAME>>." dollarValues
    ∧ dollarValues "NAME" = some "$&" := by
  decide

/-- C5 as amended: for every wizard template and every assignment in which no
replacement text (supplied value, or the not-provided marker substituted for an
empty or missing value) contains a dollar character, finalization replaces
every occurrence of each placeholder with the supplied value exactly as the
claim words it (`specHandleFinalize`); in particular the claim example holds
(conjuncts two and three, the second exercising a repeated occurrence), and for
every message list the finalizer rewrites the content of the message targeted
by timestamp while flipping its `messageType` to standard, leaving every other
message unchanged (fourth conjunct). -/
theorem c5_wizard_finalization_amended :
    (∀ (templateContent : String) (values : String → Option String),
      (∀ p ∈ templatePlaceholders templateContent,
        ('$' : Char) ∉ (placeholderValue values p).data) →
      handleFinalize templateContent values = specHandleFinalize templateContent values)
    ∧ handleFinalize wizardTemplate clauseValues
        = "Dear Ali, your case [CASE_ID_NOT_PROVIDED] is open."
    ∧ handleFinalize "Dear <<NAME>> and <<NAME>>, case <<CASE_ID>>." clauseValues
        = "Dear Ali and Ali, case [CASE_ID_NOT_PROVIDED]."
    ∧ (∀ (msgs : List ChatMessage) (ts0 : Nat) (c : String) (j : Nat),
        (handleFinalizeWizard msgs ts0 c).get? j =
          if msgs.findIdx? (fun m => m.ts == ts0) = some j
          then (msgs.get? j).map (fun m =>
            { m with content := c, messageType := some MessageType.standard })
          else msgs.get? j) := by
  refine ⟨?_, by decide, by decide, handleFinalizeWizard_get?⟩
  intro templateContent values h
  unfold handleFinalize specHandleFinalize
  have main : ∀ (ps : List String) (acc : String),
      (∀ p ∈ ps, ('$' : Char) ∉ (placeholderValue values p).data) →
      ps.foldl (fun finalized p =>
          replaceAllJS finalized ("<<" ++ p ++ ">>") (placeholderValue values p)) acc
        = ps.foldl (fun finalized p =>
          replaceAllLiteral finalized ("<<" ++ p ++ ">>") (placeholderValue values p)) acc := by
    intro ps
    induction ps with
    | nil => intro acc _; rfl
    | cons p ps ih =>
      intro acc hps
      simp only [List.foldl_cons]
      rw [replaceAllJS_eq_literal _ _ _ (hps p (List.mem_cons_self p ps))]
      exact ih _ (fun q hq => hps q (List.mem_cons_of_mem p hq))
  exact main (templatePlaceholders templateContent) templateContent h

theorem c5_wizard_finalization_amended_witness :
    handleFinalize wizardTemplate clauseValues
      = specHandleFinalize wizardTemplate clauseValues
    ∧ ((handleFinalizeWizard [wizardExampleMessage] 77 "Dear Ali.").get? 0 =
        if [wizardExampleMessage].findIdx? (fun m => m.ts == 77) = some 0
        then ([wizardExampleMessage].get? 0).map (fun m =>
          { m with content := "Dear Ali.", messageType := some MessageType.standard })
        else [wizardExampleMessage].get? 0) :=
  ⟨c5_wizard_finalization_amended.1 wizardTemplate clauseValues (by decide),
   c5_wizard_finalization_amended.2.2.2 [wizardExampleMessage] 77 "Dear Ali." 0⟩

/-- C6: appending a user message when the last stored message has role model
deletes the `suggestedReplies` field of that message; when the last stored message
has role user, all previously stored messages are left unchanged (the new
message is appended after them). -/
theorem c6_user_append_clears_prior_suggestions (s : ChatSession)
    (message : NewMessage) (now : Nat) (hu : message.role = Role.user) :
    (∀ ms m, s.messages = ms ++ [m] → m.role = Role.model →
      (addMessageToSession s message now).messages =
        ms ++ [stripReplies m, message.stamp now])
    ∧ (∀ ms m, s.messages = ms ++ [m] → m.role = Role.user →
      (addMessageToSession s message now).messages =
        s.messages ++ [message.stamp now]) := by
  constructor
  · intro ms m hms hrole
    simp [addMessageToSession, hu, hms, clearPrevSuggested_concat, hrole]
  · intro ms m hms hrole
    have hnotmodel : ¬ m.role = Role.model := by rw [hrole]; intro h; cases h
    simp [addMessageToSession, hu, hms, clearPrevSuggested_concat, hnotmodel]

theorem c6_user_append_clears_prior_suggestions_witness :
    (let prior : ChatMessage :=
      { role := Role.model, content := "answer", ts := 10,
        suggestedReplies := some ["Tell me more."] }
     let s : ChatSession :=
      { id := "c1", title := "t", createdAt := 0, meta := {}, messages := [prior] }
     let message : NewMessage := { role := Role.user, content := "follow-up" }
     (addMessageToSession s message 20).messages =
       [stripReplies prior, message.stamp 20]) :=
  (c6_user_append_clears_prior_suggestions _ _ 20 rfl).1 [] _ rfl rfl

/-- C9: `addMessageToSession` stamps `ts = Date.now()`, so two appends within
the same millisecond — exactly what the onboarding branch of
`handleSendMessage` (src/unnamed/part_000 lines 563-576) performs back to
back — yield messages with equal `ts`, refuting pairwise distinctness of the
timestamps within a session. -/
theorem c9_duplicate_ts_same_millisecond :
    (let s0 := (createNewSession none none 100 "New chat" []).1
     let s1 := addMessageToSession s0 { role := Role.user, content := "Fatima" } 499
     let s2 := addMessageToSession s1
       { role := Role.model,
         content := "Thank you, Fatima! It\x27s a pleasure to meet you." } 500
     let s3 := addMessageToSession s2
       { role := Role.model, content := "Auth Prompt",
         messageType := some MessageType.auth_prompt } 500
     (s3.messages.map fun m => m.ts) = [100, 499, 500, 500]
     ∧ ¬ (s3.messages.map fun m => m.ts).Nodup) := by
  decide

/-- C8: playing the currently active index stops it and clears the active
index; playing a different index while a source is active issues the stop of
the previous source before any start; and the coordinator never has more than
one active playback source. -/
theorem c8_at_most_one_active_playback (st : AudioState) (text : String)
    (index : Nat) (synth : Option String) (hinv : AudioInv st) :
    AudioInv (handlePlayAudio st text index synth).1
    ∧ (handlePlayAudio st text index synth).1.playing.length ≤ 1
    ∧ (st.speakingMessageIndex = some index →
        (handlePlayAudio st text index synth).1.speakingMessageIndex = none
        ∧ (handlePlayAudio st text index synth).1.playing = [])
    ∧ (st.speakingMessageIndex ≠ some index → ∀ oldId, st.sourceRef = some oldId →
        (∃ rest, (handlePlayAudio st text index synth).2
            = AudioAction.stop oldId :: rest)
        ∧ oldId ∉ (handlePlayAudio st text index synth).1.playing) := by
  obtain ⟨hstop_pl, hstop_src, hstop_next, hstop_cache, hstop_spk, hstop_acts⟩ :=
    stopCurrentSource_spec st hinv.1
  by_cases hspk : st.speakingMessageIndex = some index
  · rw [show handlePlayAudio st text index synth =
        ({ (stopCurrentSource st).1 with speakingMessageIndex := none },
         (stopCurrentSource st).2) from by
      simp only [handlePlayAudio, if_pos hspk]]
    have hinvNew : AudioInv { (stopCurrentSource st).1 with speakingMessageIndex := none } := by
      refine ⟨Or.inl hstop_pl, ?_⟩
      intro id hid
      have hid2 : st.sourceRef = some id := by rw [← hstop_src]; exact hid
      show id < (stopCurrentSource st).1.nextId
      rw [hstop_next]
      exact hinv.2 id hid2
    exact ⟨hinvNew, audioInv_length _ hinvNew, fun _ => ⟨rfl, hstop_pl⟩,
           fun hne => absurd hspk hne⟩
  · by_cases hc : (lookupCache (stopCurrentSource st).1.audioCache index).isSome
    · rw [show handlePlayAudio st text index synth =
          ({ (stopCurrentSource st).1 with
              speakingMessageIndex := some index,
              playing := (stopCurrentSource st).1.playing ++ [(stopCurrentSource st).1.nextId],
              sourceRef := some (stopCurrentSource st).1.nextId,
              nextId := (stopCurrentSource st).1.nextId + 1 },
           (stopCurrentSource st).2 ++ [AudioAction.start (stopCurrentSource st).1.nextId])
          from by simp only [handlePlayAudio, if_neg hspk, if_pos hc]]
      have hplNew : (stopCurrentSource st).1.playing ++ [(stopCurrentSource st).1.nextId]
          = [(stopCurrentSource st).1.nextId] := by
        rw [hstop_pl]
        rfl
      have hinvNew : AudioInv { (stopCurrentSource st).1 with
          speakingMessageIndex := some index,
          playing := (stopCurrentSource st).1.playing ++ [(stopCurrentSource st).1.nextId],
          sourceRef := some (stopCurrentSource st).1.nextId,
          nextId := (stopCurrentSource st).1.nextId + 1 } := by
        refine ⟨Or.inr ⟨(stopCurrentSource st).1.nextId, rfl, hplNew⟩, ?_⟩
        intro id hid
        have hid2 : (stopCurrentSource st).1.nextId = id := Option.some_inj.mp hid
        show id < (stopCurrentSource st).1.nextId + 1
        omega
      refine ⟨hinvNew, audioInv_length _ hinvNew, fun h => absurd h hspk, ?_⟩
      intro _ oldId hold
      refine ⟨⟨[AudioAction.start (stopCurrentSource st).1.nextId], ?_⟩, ?_⟩
      · show (stopCurrentSource st).2 ++ [AudioAction.start (stopCurrentSource st).1.nextId]
            = _
        rw [hstop_acts oldId hold]
        rfl
      · have hlt : oldId < (stopCurrentSource st).1.nextId := by
          rw [hstop_next]
          exact hinv.2 oldId hold
        show oldId ∉ (stopCurrentSource st).1.playing ++ [(stopCurrentSource st).1.nextId]
        rw [hstop_pl]
        simp only [List.nil_append, List.mem_singleton]
        omega
    · rw [show handlePlayAudio st text index synth =
          (prefetchAudio (stopCurrentSource st).1 text index synth, (stopCurrentSource st).2)
          from by simp only [handlePlayAudio, if_neg hspk, if_neg hc]]
      obtain ⟨hpf_pl, hpf_src, hpf_next, _⟩ :=
        prefetchAudio_spec (stopCurrentSource st).1 text index synth
      have hinvNew : AudioInv (prefetchAudio (stopCurrentSource st).1 text index synth) := by
        refine ⟨Or.inl (by rw [hpf_pl, hstop_pl]), ?_⟩
        intro id hid
        rw [hpf_src, hstop_src] at hid
        rw [hpf_next, hstop_next]
        exact hinv.2 id hid
      refine ⟨hinvNew, audioInv_length _ hinvNew, fun h => absurd h hspk, ?_⟩
      intro _ oldId hold
      refine ⟨⟨[], hstop_acts oldId hold⟩, ?_⟩
      rw [hpf_pl, hstop_pl]
      exact List.not_mem_nil oldId

theorem c8_at_most_one_active_playback_witness :
    (let st : AudioState := { speakingMessageIndex := some 3, sourceRef := some 7,
                              nextId := 8, playing := [7], audioCache := [(4, "QUJD")] }
     AudioInv (handlePlayAudio st "text" 4 none).1
     ∧ (handlePlayAudio st "text" 4 none).1.playing.length ≤ 1
     ∧ (st.speakingMessageIndex = some 4 →
         (handlePlayAudio st "text" 4 none).1.speakingMessageIndex = none
         ∧ (handlePlayAudio st "text" 4 none).1.playing = [])
     ∧ (st.speakingMessageIndex ≠ some 4 → ∀ oldId, st.sourceRef = some oldId →
         (∃ rest, (handlePlayAudio st "text" 4 none).2
             = AudioAction.stop oldId :: rest)
         ∧ oldId ∉ (handlePlayAudio st "text" 4 none).1.playing)) :=
  c8_at_most_one_active_playback _ "text" 4 none
    ⟨Or.inr ⟨7, rfl, rfl⟩, fun id hid => by
      injection hid with h
      show id < 8
      omega⟩

/-! ## Lemmas on the keyed live-message map -/

theorem upsertLive_pos (acc : List (String × LiveMessage)) (m : LiveMessage)
    (h : liveKey m ∈ acc.map Prod.fst) :
    upsertLive acc m = acc.map (fun p => if p.1 = liveKey m then (p.1, m) else p) := by
  unfold upsertLive
  split
  · rfl
  · exact absurd h (by assumption)

theorem upsertLive_neg (acc : List (String × LiveMessage)) (m : LiveMessage)
    (h : liveKey m ∉ acc.map Prod.fst) :
    upsertLive acc m = acc ++ [(liveKey m, m)] := by
  unfold upsertLive
  split
  · exact absurd (by assumption) h
  · rfl

theorem keys_upsertLive (acc : List (String × LiveMessage)) (m : LiveMessage) :
    (upsertLive acc m).map Prod.fst =
      if liveKey m ∈ acc.map Prod.fst then acc.map Prod.fst
      else acc.map Prod.fst ++ [liveKey m] := by
  by_cases hk : liveKey m ∈ acc.map Prod.fst
  · rw [if_pos hk, upsertLive_pos acc m hk, List.map_map]
    apply List.map_congr_left
    intro p _
    by_cases hp : p.1 = liveKey m <;> simp [hp]
  · rw [if_neg hk, upsertLive_neg acc m hk]
    simp

theorem goodAcc_upsertLive (acc : List (String × LiveMessage)) (m : LiveMessage)
    (h : GoodAcc acc) : GoodAcc (upsertLive acc m) := by
  obtain ⟨hnd, hkv⟩ := h
  by_cases hk : liveKey m ∈ acc.map Prod.fst
  · refine ⟨by rw [keys_upsertLive, if_pos hk]; exact hnd, ?_⟩
    intro p hp
    rw [upsertLive_pos acc m hk, List.mem_map] at hp
    obtain ⟨q, hq, hqe⟩ := hp
    by_cases hq1 : q.1 = liveKey m
    · rw [if_pos hq1] at hqe
      rw [← hqe]
      exact hq1
    · rw [if_neg hq1] at hqe
      rw [← hqe]
      exact hkv q hq
  · refine ⟨?_, ?_⟩
    · rw [keys_upsertLive, if_neg hk]
      simp [List.nodup_append, hnd, hk]
    · intro p hp
      rw [upsertLive_neg acc m hk, List.mem_append, List.mem_singleton] at hp
      rcases hp with hp | hp
      · exact hkv p hp
      · rw [hp]

theorem goodAcc_insertAllLive (ms : List LiveMessage) :
    ∀ acc, GoodAcc acc → GoodAcc (insertAllLive acc ms) := by
  induction ms with
  | nil => intro acc h; exact h
  | cons m rest ih =>
    intro acc h
    exact ih (upsertLive acc m) (goodAcc_upsertLive acc m h)

theorem insertAllLive_forall {P : LiveMessage → Prop} (ms : List LiveMessage) :
    ∀ acc, (∀ p ∈ acc, P p.2) → (∀ x ∈ ms, P x) →
      ∀ p ∈ insertAllLive acc ms, P p.2 := by
  induction ms with
  | nil => intro acc hacc _ p hp; exact hacc p hp
  | cons m rest ih =>
    intro acc hacc hms
    refine ih (upsertLive acc m) ?_ (fun x hx => hms x (List.mem_cons_of_mem m hx))
    intro p hp
    have hm : P m := hms m (List.mem_cons_self m rest)
    by_cases hk : liveKey m ∈ acc.map Prod.fst
    · rw [upsertLive_pos acc m hk, List.mem_map] at hp
      obtain ⟨q, hq, hqe⟩ := hp
      by_cases hq1 : q.1 = liveKey m
      · rw [if_pos hq1] at hqe
        rw [← hqe]
        exact hm
      · rw [if_neg hq1] at hqe
        rw [← hqe]
        exact hacc q hq
    · rw [upsertLive_neg acc m hk, List.mem_append, List.mem_singleton] at hp
      rcases hp with hp | hp
      · exact hacc p hp
      · rw [hp]; exact hm

theorem dedupLive_forall {P : LiveMessage → Prop} (ms : List LiveMessage)
    (hms : ∀ x ∈ ms, P x) : ∀ x ∈ dedupLive ms, P x := by
  intro x hx
  simp only [dedupLive, List.mem_map] at hx
  obtain ⟨p, hp, hpe⟩ := hx
  rw [← hpe]
  exact insertAllLive_forall ms [] (by intro q hq; cases hq) hms p hp

theorem mem_keys_insertAllLive (ms : List LiveMessage) :
    ∀ acc k, (k ∈ (insertAllLive acc ms).map Prod.fst ↔
      k ∈ acc.map Prod.fst ∨ k ∈ ms.map liveKey) := by
  induction ms with
  | nil => intro acc k; simp [insertAllLive]
  | cons m rest ih =>
    intro acc k
    have step : insertAllLive acc (m :: rest) = insertAllLive (upsertLive acc m) rest := rfl
    rw [step, ih]
    rw [keys_upsertLive]
    by_cases hk : liveKey m ∈ acc.map Prod.fst
    · rw [if_pos hk]
      simp only [List.map_cons, List.mem_cons]
      constructor
      · rintro (h | h)
        · exact Or.inl h
        · exact Or.inr (Or.inr h)
      · rintro (h | h | h)
        · exact Or.inl h
        · rw [h]; exact Or.inl hk
        · exact Or.inr h
    · rw [if_neg hk]
      simp only [List.mem_append, List.mem_singleton, List.map_cons, List.mem_cons]
      tauto

theorem upsertLive_append (A B : List (String × LiveMessage)) (m : LiveMessage)
    (hA : liveKey m ∉ A.map Prod.fst) :
    upsertLive (A ++ B) m = A ++ upsertLive B m := by
  have hmapA : A.map (fun p => if p.1 = liveKey m then (p.1, m) else p) = A := by
    have h1 : ∀ p ∈ A, (if p.1 = liveKey m then (p.1, m) else p) = p := by
      intro p hp
      have hne : p.1 ≠ liveKey m := by
        intro he
        exact hA (he ▸ List.mem_map_of_mem Prod.fst hp)
      rw [if_neg hne]
    rw [List.map_congr_left h1]
    simp
  by_cases hk : liveKey m ∈ B.map Prod.fst
  · have hmem : liveKey m ∈ (A ++ B).map Prod.fst := by
      rw [List.map_append, List.mem_append]
      exact Or.inr hk
    rw [upsertLive_pos _ m hmem, upsertLive_pos _ m hk, List.map_append, hmapA]
  · have hmem : liveKey m ∉ (A ++ B).map Prod.fst := by
      rw [List.map_append, List.mem_append]
      rintro (h | h)
      · exact hA h
      · exact hk h
    rw [upsertLive_neg _ m hmem, upsertLive_neg _ m hk, List.append_assoc]

theorem insertAllLive_append (ms : List LiveMessage) :
    ∀ A B, (∀ x ∈ ms, liveKey x ∉ A.map Prod.fst) →
      insertAllLive (A ++ B) ms = A ++ insertAllLive B ms := by
  induction ms with
  | nil => intro A B _; rfl
  | cons m rest ih =>
    intro A B h
    have step : insertAllLive (A ++ B) (m :: rest)
        = insertAllLive (upsertLive (A ++ B) m) rest := rfl
    rw [step, upsertLive_append A B m (h m (List.mem_cons_self m rest))]
    exact ih A (upsertLive B m) (fun x hx => h x (List.mem_cons_of_mem m hx))

theorem dedupLive_append_of_disjoint (T S : List LiveMessage)
    (h : ∀ x ∈ S, liveKey x ∉ T.map liveKey) :
    dedupLive (T ++ S) = dedupLive T ++ dedupLive S := by
  unfold dedupLive
  have hfold : insertAllLive [] (T ++ S) = insertAllLive (insertAllLive [] T) S :=
    List.foldl_append _ _ _ _
  have hdj : ∀ x ∈ S, liveKey x ∉ (insertAllLive [] T).map Prod.fst := by
    intro x hx hk
    rcases (mem_keys_insertAllLive T [] (liveKey x)).mp hk with h0 | h0
    · cases h0
    · exact h x hx h0
  rw [hfold, show insertAllLive (insertAllLive [] T) S
        = insertAllLive (insertAllLive [] T ++ []) S by rw [List.append_nil],
      insertAllLive_append S (insertAllLive [] T) [] hdj, List.map_append]

theorem insertAllLive_map_snd (B : List (String × LiveMessage)) :
    ∀ A, GoodAcc (A ++ B) → insertAllLive A (B.map Prod.snd) = A ++ B := by
  induction B with
  | nil => intro A _; simp [insertAllLive]
  | cons p B ih =>
    intro A hgood
    have hp1 : p.1 = liveKey p.2 :=
      hgood.2 p (by rw [List.mem_append]; exact Or.inr (List.mem_cons_self p B))
    have hnotin : liveKey p.2 ∉ A.map Prod.fst := by
      rw [← hp1]
      intro hmem
      have hnd := hgood.1
      rw [List.map_append, List.map_cons, List.nodup_append] at hnd
      exact hnd.2.2 hmem (List.mem_cons_self p.1 (B.map Prod.fst))
    have hup : upsertLive A p.2 = A ++ [p] := by
      rw [upsertLive_neg A p.2 hnotin, ← hp1]
    calc insertAllLive A ((p :: B).map Prod.snd)
        = insertAllLive (upsertLive A p.2) (B.map Prod.snd) := rfl
      _ = insertAllLive (A ++ [p]) (B.map Prod.snd) := by rw [hup]
      _ = (A ++ [p]) ++ B := ih (A ++ [p]) (by
            rw [List.append_assoc, List.singleton_append]
            exact hgood)
      _ = A ++ p :: B := by rw [List.append_assoc, List.singleton_append]

theorem dedupLive_idem (ms : List LiveMessage) :
    dedupLive (dedupLive ms) = dedupLive ms := by
  have hgood : GoodAcc (insertAllLive [] ms) :=
    goodAcc_insertAllLive ms [] ⟨List.nodup_nil, by intro p hp; cases hp⟩
  show (insertAllLive [] ((insertAllLive [] ms).map Prod.snd)).map Prod.snd = _
  rw [show insertAllLive [] ((insertAllLive [] ms).map Prod.snd)
        = [] ++ insertAllLive [] ms from
      insertAllLive_map_snd (insertAllLive [] ms) [] (by simpa using hgood)]
  rfl

theorem string_data_inj {a b : String} (h : a.data = b.data) : a = b := by
  cases a with
  | mk d1 =>
    cases b with
    | mk d2 =>
      have h2 : d1 = d2 := h
      rw [h2]

theorem liveKey_transcript_inj (t1 t2 : TranscriptionTurn)
    (h : liveKey (LiveMessage.transcript t1) = liveKey (LiveMessage.transcript t2)) :
    t1 = t2 := by
  obtain ⟨s1, x1⟩ := t1
  obtain ⟨s2, x2⟩ := t2
  simp only [liveKey] at h
  cases s1 <;> cases s2 <;> simp only [speakerStr] at h <;>
    have hd := congrArg String.data h <;>
    simp only [String.data_append] at hd
  · have hx := List.append_cancel_left hd
    rw [string_data_inj hx]
  · simp at hd
  · simp at hd
  · have hx := List.append_cancel_left hd
    rw [string_data_inj hx]

theorem count_snd_le_one (v : LiveMessage) :
    ∀ acc : List (String × LiveMessage), GoodAcc acc →
      ((acc.map Prod.snd).count v : Nat) ≤ 1 := by
  intro acc
  induction acc with
  | nil => intro _; simp
  | cons p rest ih =>
    intro hgood
    have hndc := hgood.1
    rw [List.map_cons, List.nodup_cons] at hndc
    have hgr : GoodAcc rest :=
      ⟨hndc.2, fun q hq => hgood.2 q (List.mem_cons_of_mem p hq)⟩
    rw [List.map_cons]
    by_cases hv : p.2 = v
    · have h0 : ((rest.map Prod.snd).count v : Nat) = 0 := by
        rw [List.count_eq_zero]
        intro hmem
        obtain ⟨q, hq, hqe⟩ := List.mem_map.mp hmem
        have hq1 : q.1 = liveKey v := by
          rw [hgood.2 q (List.mem_cons_of_mem p hq), hqe]
        have hp1 : p.1 = liveKey v := by
          rw [hgood.2 p (List.mem_cons_self p rest), hv]
        refine hndc.1 ?_
        rw [hp1, ← hq1]
        exact List.mem_map_of_mem Prod.fst hq
      simp [List.count_cons, h0, hv]
    · have hv2 : ¬ v = p.2 := fun he => hv he.symm
      simpa [List.count_cons, hv, hv2] using ih hgr

theorem emptyGoodAcc : GoodAcc [] :=
  ⟨List.nodup_nil, fun p hp => absurd hp (List.not_mem_nil p)⟩

theorem count_dedupLive_le_one (ms : List LiveMessage) (v : LiveMessage) :
    ((dedupLive ms).count v : Nat) ≤ 1 :=
  count_snd_le_one v (insertAllLive [] ms) (goodAcc_insertAllLive ms [] emptyGoodAcc)

theorem transcript_mem_dedupLive (turns : List TranscriptionTurn)
    (t : TranscriptionTurn) (h : t ∈ turns) :
    LiveMessage.transcript t ∈ dedupLive (turns.map LiveMessage.transcript) := by
  have hgood : GoodAcc (insertAllLive [] (turns.map LiveMessage.transcript)) :=
    goodAcc_insertAllLive _ [] emptyGoodAcc
  have hkey : liveKey (LiveMessage.transcript t)
      ∈ (turns.map LiveMessage.transcript).map liveKey := by
    rw [List.map_map]
    exact List.mem_map_of_mem _ h
  have hkeys : liveKey (LiveMessage.transcript t)
      ∈ (insertAllLive [] (turns.map LiveMessage.transcript)).map Prod.fst :=
    (mem_keys_insertAllLive _ [] _).mpr (Or.inr hkey)
  obtain ⟨p, hp, hpe⟩ := List.mem_map.mp hkeys
  have hval : p.2 ∈ turns.map LiveMessage.transcript :=
    @insertAllLive_forall (fun x => x ∈ turns.map LiveMessage.transcript)
      (turns.map LiveMessage.transcript) []
      (fun q hq => absurd hq (List.not_mem_nil q)) (fun x hx => hx) p hp
  obtain ⟨t2, ht2, hte⟩ := List.mem_map.mp hval
  have hk2 : liveKey p.2 = liveKey (LiveMessage.transcript t) := by
    rw [← hgood.2 p hp, hpe]
  rw [← hte] at hk2
  have ht2t : t2 = t := liveKey_transcript_inj t2 t hk2
  have hp2 : p.2 = LiveMessage.transcript t := by rw [← hte, ht2t]
  rw [← hp2]
  exact List.mem_map_of_mem Prod.snd hp

/-- Key-disjointness of the reachable merge inputs: no previously displayed
system message text coincides with the `speaker:text` key of an incoming turn
(the system messages of the program all start with "Summar", "Summary: " or
"Failed", never with "user:" or "model:"). -/
def SysKeysFresh (turns : List TranscriptionTurn) (cur : List LiveMessage) : Prop :=
  ∀ m ∈ cur, isSystemMsg m = true →
    liveKey m ∉ (turns.map LiveMessage.transcript).map liveKey

instance (turns : List TranscriptionTurn) (cur : List LiveMessage) :
    Decidable (SysKeysFresh turns cur) := by
  unfold SysKeysFresh
  infer_instance

theorem handleTranscriptionUpdate_split (turns : List TranscriptionTurn)
    (cur : List LiveMessage) (hdisj : SysKeysFresh turns cur) :
    handleTranscriptionUpdate turns cur =
      dedupLive (turns.map LiveMessage.transcript)
        ++ dedupLive (cur.filter isSystemMsg) := by
  unfold handleTranscriptionUpdate
  apply dedupLive_append_of_disjoint
  intro x hx
  rw [List.mem_filter] at hx
  exact hdisj x hx.1 hx.2

theorem dedupLive_transcripts_not_system (turns : List TranscriptionTurn) :
    ∀ x ∈ dedupLive (turns.map LiveMessage.transcript), isSystemMsg x = false := by
  apply dedupLive_forall
  intro x hx
  obtain ⟨t, _, hte⟩ := List.mem_map.mp hx
  rw [← hte]
  rfl

theorem dedupLive_filtered_system (cur : List LiveMessage) :
    ∀ x ∈ dedupLive (cur.filter isSystemMsg), isSystemMsg x = true := by
  apply dedupLive_forall
  intro x hx
  exact (List.mem_filter.mp hx).2

/-- C7: the live-transcription merge deduplicates by the (speaker, text) key:
re-delivering the same update leaves the visible list unchanged (idempotence),
every message — transcript turns keyed by (speaker, text) and system messages
keyed by their text — appears at most once, and a turn contained in the update
appears exactly once.  The `SysKeysFresh` hypothesis states that no displayed
system text collides with the `speaker:text` map key of a turn, which holds of all
system messages the program creates. -/
theorem c7_transcription_merge_idempotent_dedup (turns : List TranscriptionTurn)
    (cur : List LiveMessage) (hdisj : SysKeysFresh turns cur) :
    handleTranscriptionUpdate turns (handleTranscriptionUpdate turns cur)
      = handleTranscriptionUpdate turns cur
    ∧ (∀ v : LiveMessage, ((handleTranscriptionUpdate turns cur).count v : Nat) ≤ 1)
    ∧ (∀ t ∈ turns,
        ((handleTranscriptionUpdate turns cur).count (LiveMessage.transcript t) : Nat) = 1) := by
  have hsplit := handleTranscriptionUpdate_split turns cur hdisj
  have htr := dedupLive_transcripts_not_system turns
  have hsys := dedupLive_filtered_system cur
  refine ⟨?_, ?_, ?_⟩
  · -- idempotence
    have hfresh2 : SysKeysFresh turns (handleTranscriptionUpdate turns cur) := by
      intro m hm hmS
      rw [hsplit, List.mem_append] at hm
      rcases hm with hm | hm
      · rw [htr m hm] at hmS
        cases hmS
      · obtain ⟨p, hp, hpe⟩ := List.mem_map.mp hm
        have hmem : p.2 ∈ cur.filter isSystemMsg :=
          @insertAllLive_forall (fun x => x ∈ cur.filter isSystemMsg)
            (cur.filter isSystemMsg) []
            (fun q hq => absurd hq (List.not_mem_nil q)) (fun x hx => hx) p hp
        rw [hpe] at hmem
        rw [List.mem_filter] at hmem
        exact hdisj m hmem.1 hmS
    have hsplit2 := handleTranscriptionUpdate_split turns
      (handleTranscriptionUpdate turns cur) hfresh2
    rw [hsplit2, hsplit]
    congr 1
    have hfilter : (dedupLive (turns.map LiveMessage.transcript)
        ++ dedupLive (cur.filter isSystemMsg)).filter isSystemMsg
        = dedupLive (cur.filter isSystemMsg) := by
      rw [List.filter_append,
          List.filter_eq_nil_iff.mpr (by intro a ha; rw [htr a ha]; simp),
          List.filter_eq_self.mpr hsys, List.nil_append]
    rw [hfilter, dedupLive_idem]
  · -- global at-most-once
    intro v
    rw [hsplit, List.count_append]
    by_cases hv : isSystemMsg v = true
    · have h0 : ((dedupLive (turns.map LiveMessage.transcript)).count v : Nat) = 0 := by
        rw [List.count_eq_zero]
        intro hmem
        rw [htr v hmem] at hv
        cases hv
      rw [h0, Nat.zero_add]
      exact count_dedupLive_le_one _ v
    · have h0 : ((dedupLive (cur.filter isSystemMsg)).count v : Nat) = 0 := by
        rw [List.count_eq_zero]
        intro hmem
        exact hv (hsys v hmem)
      rw [h0, Nat.add_zero]
      exact count_dedupLive_le_one _ v
  · -- turns delivered appear exactly once
    intro t ht
    rw [hsplit, List.count_append]
    have h0 : ((dedupLive (cur.filter isSystemMsg)).count (LiveMessage.transcript t) : Nat)
        = 0 := by
      rw [List.count_eq_zero]
      intro hmem
      have := hsys _ hmem
      cases this
    rw [h0, Nat.add_zero]
    have hle := count_dedupLive_le_one (turns.map LiveMessage.transcript)
      (LiveMessage.transcript t)
    have hge : 0 < ((dedupLive (turns.map LiveMessage.transcript)).count
        (LiveMessage.transcript t) : Nat) :=
      List.count_pos_iff.mpr (transcript_mem_dedupLive turns t ht)
    omega

theorem c7_transcription_merge_idempotent_dedup_witness :
    (let turns : List TranscriptionTurn :=
      [{ speaker := Speaker.user, text := "hi" },
       { speaker := Speaker.model, text := "hello" },
       { speaker := Speaker.user, text := "hi" }]
     let cur : List LiveMessage :=
      [LiveMessage.transcript { speaker := Speaker.user, text := "hi" },
       LiveMessage.system "Summarizing conversation...",
       LiveMessage.system "Summarizing conversation..."]
     handleTranscriptionUpdate turns (handleTranscriptionUpdate turns cur)
       = handleTranscriptionUpdate turns cur
     ∧ (∀ v : LiveMessage, ((handleTranscriptionUpdate turns cur).count v : Nat) ≤ 1)
     ∧ (∀ t ∈ turns,
         ((handleTranscriptionUpdate turns cur).count (LiveMessage.transcript t) : Nat) = 1)) :=
  c7_transcription_merge_idempotent_dedup _ _ (by decide)

/-- C10: after a transcription update is processed, the visible list is the
deduplicated transcript turns followed by the system messages — every
transcript entry precedes every system entry, so a system message interleaved
between turns does not keep its position. -/
theorem c10_transcripts_precede_systems (turns : List TranscriptionTurn)
    (cur : List LiveMessage) (hdisj : SysKeysFresh turns cur) :
    ∃ A B, handleTranscriptionUpdate turns cur = A ++ B
      ∧ (∀ a ∈ A, isSystemMsg a = false)
      ∧ (∀ b ∈ B, isSystemMsg b = true) :=
  ⟨dedupLive (turns.map LiveMessage.transcript), dedupLive (cur.filter isSystemMsg),
   handleTranscriptionUpdate_split turns cur hdisj,
   dedupLive_transcripts_not_system turns,
   dedupLive_filtered_system cur⟩

theorem c10_transcripts_precede_systems_witness :
    (let turns : List TranscriptionTurn :=
      [{ speaker := Speaker.user, text := "hi" },
       { speaker := Speaker.model, text := "hello" }]
     let cur : List LiveMessage :=
      [LiveMessage.transcript { speaker := Speaker.user, text := "hi" },
       LiveMessage.system "Summarizing conversation...",
       LiveMessage.transcript { speaker := Speaker.model, text := "hello" }]
     ∃ A B, handleTranscriptionUpdate turns cur = A ++ B
       ∧ (∀ a ∈ A, isSystemMsg a = false)
       ∧ (∀ b ∈ B, isSystemMsg b = true)) :=
  c10_transcripts_precede_systems _ _ (by decide)

/-! ## Reachable session states (claim C3)

The operations below are the only places in the source that create or mutate
messages of a stored session:
  * `addMessageToSession` with a payload carrying no error fields — the user
    append, the empty model append, the onboarding, confirmation, research and
    suggestion appends of both ChatUI variants;
  * `addMessageToSession` with the error payload of the catch block of
    src/unnamed/part_000 (lines 603-614): `error: true, promptForRetry: prompt`;
  * the chunk mutation of `processStream` (last message content);
  * the success mutation of `handleSendMessage` (content, sources,
    suggestedReplies, messageType, researchData at the snapshot index);
  * the failure mutation of `handleSendMessage` (apology content, error,
    promptForRetry, fileData at the snapshot index);
  * the retry filter of src/unnamed/part_000 (line 554);
  * `handleFinalizeWizard`;
  * the auth-prompt removal of both variants
    (filtering out messages whose `messageType` is `auth_prompt`). -/

def retryKeeps (prompt : String) (m : ChatMessage) : Bool :=
  !(m.error == some true && m.promptForRetry == some prompt)

def notAuthPrompt (m : ChatMessage) : Bool :=
  !(m.messageType == some MessageType.auth_prompt)

inductive SessionStep : ChatSession → ChatSession → Prop where
  | append (s : ChatSession) (message : NewMessage) (now : Nat)
      (herr : message.error = none) (hpfr : message.promptForRetry = none) :
      SessionStep s (addMessageToSession s message now)
  | appendErrorMessage (s : ChatSession) (content prompt : String) (now : Nat) :
      SessionStep s (addMessageToSession s
        { role := Role.model, content := content, error := some true,
          promptForRetry := some prompt } now)
  | streamChunk (s : ChatSession) (c : String) :
      SessionStep s { s with
        messages := modifyLast (fun m => { m with content := c }) s.messages }
  | streamSuccess (s : ChatSession) (i : Nat) (full : String)
      (srcs : Option (List Source)) (reps : List String) (mt : MessageType)
      (rd : Option ResearchBundle) :
      SessionStep s { s with messages := modifyIdx s.messages i (fun m =>
        { m with content := full, sources := srcs, suggestedReplies := some reps,
                 messageType := some mt, researchData := rd }) }
  | streamFailure (s : ChatSession) (i : Nat) (prompt : String) (file : Option FileData) :
      SessionStep s { s with messages := modifyIdx s.messages i (fun m =>
        { m with content := apologyMessage, error := some true,
                 promptForRetry := some prompt, fileData := file }) }
  | retryRemoval (s : ChatSession) (prompt : String) :
      SessionStep s { s with messages := s.messages.filter (retryKeeps prompt) }
  | wizardFinalizeStep (s : ChatSession) (messageTs : Nat) (content : String) :
      SessionStep s { s with
        messages := handleFinalizeWizard s.messages messageTs content }
  | authResolution (s : ChatSession) :
      SessionStep s { s with messages := s.messages.filter notAuthPrompt }

/-- Session states reachable from an initial state through the message
operations of the program. -/
def ReachableSession (s0 s : ChatSession) : Prop :=
  Relation.ReflTransGen SessionStep s0 s

/-- The claimed invariant for one message: `error = true` exactly when
`promptForRetry` is set. -/
def errOk (m : ChatMessage) : Prop :=
  m.error = some true ↔ m.promptForRetry.isSome = true

def SessionErrOk (s : ChatSession) : Prop := ∀ m ∈ s.messages, errOk m

theorem errOk_of_clearPrevSuggested (msgs : List ChatMessage)
    (h : ∀ m ∈ msgs, errOk m) : ∀ m ∈ clearPrevSuggested msgs, errOk m := by
  unfold clearPrevSuggested
  split
  · rename_i lastM hlast
    split
    · intro m hm
      rw [List.mem_append, List.mem_singleton] at hm
      rcases hm with hm | hm
      · exact h m ((List.dropLast_sublist msgs).subset hm)
      · have heq := List.dropLast_append_getLast? lastM (Option.mem_def.mpr hlast)
        rw [hm]
        refine h lastM ?_
        rw [← heq]
        exact List.mem_append_right _ (List.mem_singleton_self lastM)
    · exact h
  · exact h

theorem errOk_addMessageToSession (s : ChatSession) (message : NewMessage)
    (now : Nat) (h : SessionErrOk s) (hmsg : errOk (message.stamp now)) :
    SessionErrOk (addMessageToSession s message now) := by
  intro m hm
  unfold addMessageToSession at hm
  simp only [List.mem_append, List.mem_singleton] at hm
  rcases hm with hm | hm
  · by_cases hrole : message.role = Role.user
    · rw [if_pos hrole] at hm
      exact errOk_of_clearPrevSuggested s.messages h m hm
    · rw [if_neg hrole] at hm
      exact h m hm
  · rw [hm]
    exact hmsg

theorem errOk_modifyIdx (msgs : List ChatMessage) (i : Nat)
    (f : ChatMessage → ChatMessage) (h : ∀ m ∈ msgs, errOk m)
    (hf : ∀ m ∈ msgs, errOk m → errOk (f m)) :
    ∀ m ∈ modifyIdx msgs i f, errOk m := by
  intro m hm
  unfold modifyIdx at hm
  cases hget : msgs.get? i with
  | none =>
    rw [hget] at hm
    exact h m hm
  | some m0 =>
    rw [hget] at hm
    rcases List.mem_or_eq_of_mem_set hm with hm2 | hm2
    · exact h m hm2
    · have hm0 : m0 ∈ msgs := List.get?_mem hget
      rw [hm2]
      exact hf m0 hm0 (h m0 hm0)

theorem errOk_handleFinalizeWizard (msgs : List ChatMessage) (ts0 : Nat)
    (c : String) (h : ∀ m ∈ msgs, errOk m) :
    ∀ m ∈ handleFinalizeWizard msgs ts0 c, errOk m := by
  unfold handleFinalizeWizard
  cases hfind : msgs.findIdx? (fun m => m.ts == ts0) with
  | none => exact h
  | some i => exact errOk_modifyIdx msgs i _ h (fun q _ hq => hq)

theorem errOk_modifyLast (f : ChatMessage → ChatMessage)
    (hf : ∀ m, errOk m → errOk (f m)) :
    ∀ msgs : List ChatMessage, (∀ m ∈ msgs, errOk m) →
      ∀ m ∈ modifyLast f msgs, errOk m := by
  intro msgs
  induction msgs with
  | nil => intro _ m hm; cases hm
  | cons m0 rest ih =>
    intro h m hm
    cases rest with
    | nil =>
      simp only [modifyLast, List.mem_singleton] at hm
      rw [hm]
      exact hf m0 (h m0 (List.mem_cons_self m0 []))
    | cons m1 rest2 =>
      simp only [modifyLast, List.mem_cons] at hm
      rcases hm with hm | hm
      · rw [hm]
        exact h m0 (List.mem_cons_self _ _)
      · exact ih (fun q hq => h q (List.mem_cons_of_mem m0 hq)) m hm

/-- C3: every message of every session state reachable from session creation
through the message operations of the program satisfies
`error = true ↔ promptForRetry is set`. -/
theorem c3_error_iff_promptForRetry (userName : Option String)
    (code : Option ServiceCode) (now : Nat) (title : String) (order : List String)
    (s : ChatSession)
    (h : ReachableSession (createNewSession userName code now title order).1 s) :
    SessionErrOk s := by
  induction h with
  | refl =>
    intro m hm
    simp only [createNewSession, List.mem_singleton] at hm
    rw [hm]
    exact ⟨fun hc => (nomatch hc), fun hc => (nomatch hc)⟩
  | tail hsteps hstep ih =>
    cases hstep with
    | append message now2 herr hpfr =>
      refine errOk_addMessageToSession _ message now2 ih ?_
      show message.error = some true ↔ message.promptForRetry.isSome = true
      rw [herr, hpfr]
      exact ⟨fun hc => (nomatch hc), fun hc => (nomatch hc)⟩
    | appendErrorMessage content prompt now2 =>
      refine errOk_addMessageToSession _ _ now2 ih ?_
      exact ⟨fun _ => rfl, fun _ => rfl⟩
    | streamChunk c =>
      exact errOk_modifyLast (fun m => { m with content := c }) (fun m hm => hm) _ ih
    | streamSuccess i full srcs reps mt rd =>
      exact errOk_modifyIdx _ i (fun m =>
        { m with content := full, sources := srcs, suggestedReplies := some reps,
                 messageType := some mt, researchData := rd }) ih (fun m _ hm => hm)
    | streamFailure i prompt file =>
      exact errOk_modifyIdx _ i _ ih
        (fun m _ _ => ⟨fun _ => rfl, fun _ => rfl⟩)
    | retryRemoval prompt =>
      intro m hm
      exact ih m (List.mem_of_mem_filter hm)
    | wizardFinalizeStep messageTs content =>
      exact errOk_handleFinalizeWizard _ messageTs content ih
    | authResolution =>
      intro m hm
      exact ih m (List.mem_of_mem_filter hm)

theorem c3_error_iff_promptForRetry_witness :
    SessionErrOk (createNewSession none none 100 "New chat" []).1 :=
  c3_error_iff_promptForRetry none none 100 "New chat" [] _ Relation.ReflTransGen.refl

end Aidlex
